import Mathlib

/-!
Verification of the `director` router core (`lib/director/router.js`).

The JavaScript source is shallowly embedded: JS strings are `List Char`
(`JStr`), JS values occurring in the routing table are the inductive `JVal`,
regular expressions built by string concatenation in the source are parsed
from their source strings by a small engine implementing the anchored,
greedy, backtracking semantics of JS `String.prototype.match`, and the
mutation-style functions (`insert`, `path`, `dispatch`) become state-passing
functions.  Exceptions thrown by the JS code are `Except` errors.
-/

namespace Director

/-- JS strings, modelled as lists of characters. -/
abbrev JStr := List Char

/-- Literal notation helper: the character list of a Lean string. -/
def jstr (s : String) : JStr := s.data

/-- Boolean prefix test on character lists (`String.prototype` style). -/
def listPre : JStr → JStr → Bool
  | [], _ => true
  | _ :: _, [] => false
  | a :: as, b :: bs => a == b && listPre as bs

/-- `a.indexOf(c) !== -1`, i.e. membership of a character. -/
def hasChar (s : JStr) (c : Char) : Bool := s.contains c

/-!
## Pattern compiler (`paramifyString`, `regifyString`)

Source lines 75-109.  `params` is the ordered collection of substitution
functions built by `Router.prototype.param`; JS object keys added by
assignment enumerate in insertion order, so the object of functions becomes
an ordered list of functions.
-/

/-- The default capture fragment used when no substitution changes a token
(source line 85). -/
def defaultParam : JStr := jstr "([a-zA-Z0-9-]+)"

/-- The wildcard replacement fragment (source line 95); in the JS string
literal the escapes `\.`, `\(`, `\)`, `\\` denote `.`, `(`, `)` and `\`. -/
def wildcardFragment : JStr := jstr "([_.()!\\ %@&a-zA-Z0-9-]+)"

/-- The `for (var param in params)` loop body of `paramifyString`:
`mod = params[param](str); if (mod !== str) break`.  Returns the final value
of `mod`. -/
def paramLoop (str : JStr) : List (JStr → JStr) → JStr
  | [] => str
  | f :: rest =>
      let mod := f str
      if mod ≠ str then mod else paramLoop str rest

/-- `paramifyString(str, params)` (source lines 75-87). -/
def paramifyString (str : JStr) (params : List (JStr → JStr)) : JStr :=
  let mod := paramLoop str params
  if mod = str then defaultParam else mod

/-- `str.replace(/\*/g, wildcardFragment)`: global replacement of `*`. -/
def replaceStar : JStr → JStr
  | [] => []
  | c :: rest => if c = '*' then wildcardFragment ++ replaceStar rest
                 else c :: replaceStar rest

/-- `str.match(/:([^\/]+)/ig)`: scan for every maximal run `:x…x` whose body
is one-or-more non-delimiter characters; after a match scanning resumes past
it, after a failed position it advances one character.  Returns the list of
full matches (the `:`-prefixed tokens), in order. -/
def colonTokens : JStr → List JStr
  | [] => []
  | c :: rest =>
      if c = ':' then
        let tok := rest.takeWhile (fun d => d ≠ '/')
        if tok = [] then colonTokens rest
        else (':' :: tok) :: colonTokens (rest.drop tok.length)
      else colonTokens rest
termination_by s => s.length
decreasing_by
  · simp
  · simp only [List.length_cons, List.length_drop]
    omega
  · simp

/-- `str.replace(sub, repl)` with a string pattern: replace the first
occurrence of `sub` (our uses always have `sub ≠ []`). -/
def replaceFirst (s sub repl : JStr) : JStr :=
  if listPre sub s then repl ++ s.drop sub.length
  else
    match s with
    | [] => []
    | c :: rest => c :: replaceFirst rest sub repl

/-- `regifyString(str, params)` (source lines 93-109): expand wildcards,
then replace each captured `:token` by its paramified form, sequentially. -/
def regifyString (str : JStr) (params : List (JStr → JStr)) : JStr :=
  let str := if hasChar str '*' then replaceStar str else str
  let captures := colonTokens str
  captures.foldl (fun acc c => replaceFirst acc c (paramifyString c params)) str

/-- `str.replace(new RegExp(token, 'g'), matcher)` for a literal token: the
substitution function produced by `Router.prototype.param` (source lines
168-177). -/
def replaceAllLit (sub repl : JStr) : JStr → JStr
  | [] => []
  | c :: rest =>
      if listPre sub (c :: rest) ∧ sub ≠ [] then
        repl ++ replaceAllLit sub repl ((c :: rest).drop sub.length)
      else c :: replaceAllLit sub repl rest
termination_by s => s.length
decreasing_by
  · rename_i h
    simp only [List.length_drop]
    have : sub.length ≠ 0 := by
      rcases h with ⟨_, hne⟩
      simpa [List.length_eq_zero] using hne
    simp only [List.length_cons]
    omega
  · simp

/-- Specification-side recharacterisation of the capture-replacement loop of
`regifyString` when no substitution changes any token: every scanned
`:token` run is rewritten, in place, to the default capture fragment. -/
def replaceTokens : JStr → JStr
  | [] => []
  | c :: rest =>
      if c = ':' then
        let tok := rest.takeWhile (fun d => d ≠ '/')
        if tok = [] then ':' :: replaceTokens rest
        else defaultParam ++ replaceTokens (rest.drop tok.length)
      else c :: replaceTokens rest
termination_by s => s.length
decreasing_by
  · simp
  · simp only [List.length_cons, List.length_drop]
    omega
  · simp

/-- The substitution function registered by `router.param(':a', ':b')`
(source lines 168-177): replace every occurrence of `:a` by `:b`. -/
def subAB : JStr → JStr := replaceAllLit (jstr ":a") (jstr ":b")

/-!
## JS values and the routing table

A routing-table value is a function (a handler; JS functions can carry
properties, which `insert` exploits when it descends through a segment
occupied by a callable), a string (a resource-method name), an array of
handlers, or a plain object (a table node).  Handler functions are
abstracted by an identifier plus their observable behaviour: whether the
function returns exactly `false` when invoked synchronously, and whether it
reports failure (an error, or `false`) to its continuation when invoked
asynchronously.
-/

/-- Synchronous return behaviour of a handler: `=== false`, or anything
else. -/
inductive HRet where
  | rfalse
  | rother
deriving DecidableEq

/-- What a handler passes to its continuation in asynchronous mode:
a value `err` with `err || err === false` (failure), or a falsy
non-`false` value (success). -/
inductive ARet where
  | aok
  | afail
deriving DecidableEq

/-- Observable behaviour of a handler function. -/
structure HBeh where
  sret : HRet
  aret : ARet
deriving DecidableEq

/-- JS values stored in the routing table. -/
inductive JVal where
  | fn (id : Nat) (beh : HBeh) (props : List (JStr × JVal))
  | str (s : JStr)
  | arr (elems : List JVal)
  | obj (entries : List (JStr × JVal))

/-- JS truthiness of a possibly-absent table value: `undefined` and the
empty string are falsy; functions, arrays, objects and nonempty strings are
truthy. -/
def truthy : Option JVal → Bool
  | none => false
  | some (.str s) => !s.isEmpty
  | some _ => true

/-- Own-property lookup on an assoc list (JS object keys are unique and
enumerate in insertion order). -/
def lookupEntry : List (JStr × JVal) → JStr → Option JVal
  | [], _ => none
  | (k', v) :: rest, k => if k' = k then some v else lookupEntry rest k

/-- Property update on an assoc list: overwrite in place, or append. -/
def setEntry : List (JStr × JVal) → JStr → JVal → List (JStr × JVal)
  | [], k, v => [(k, v)]
  | (k', v') :: rest, k, v =>
      if k' = k then (k, v) :: rest else (k', v') :: setEntry rest k v

/-- `v[k]`: property read.  Objects and functions carry own properties;
strings and arrays are not given user properties in this model. -/
def getProp (v : JVal) (k : JStr) : Option JVal :=
  match v with
  | .obj es => lookupEntry es k
  | .fn _ _ props => lookupEntry props k
  | _ => none

/-- `v[k] = x`: property write.  On objects and functions the property is
stored; on primitives the write is a silent no-op (sloppy mode). -/
def setProp (t : JVal) (k : JStr) (v : JVal) : JVal :=
  match t with
  | .obj es => .obj (setEntry es k v)
  | .fn id beh props => .fn id beh (setEntry props k v)
  | other => other

/-- The JS `typeof` string of a table value. -/
def typeOf : JVal → String
  | .fn _ _ _ => "function"
  | .str _ => "string"
  | .arr _ => "object"
  | .obj _ => "object"

/-- Errors thrown during insertion: the `Invalid route context` error
(source line 580) carrying `typeof parent[part]`, or a JS `TypeError`
(calling `.push` on a non-array). -/
inductive JErr where
  | invalidContext (ty : String)
  | typeError
deriving DecidableEq

/-- The terminal step of `Router.prototype.insert` (source lines 555-581):
place `route` in the `(parent[part], method)` slot.  A slot holding a
function becomes the pair `[existing, route]`; an array is appended; an
absent slot is set; a string handler in the slot falls through the switch
and hits the `Invalid route context` throw; a `part` slot occupied by a
function, array or string throws `Invalid route context` with its
`typeof`. -/
def insertFinal (method part : JStr) (route parent : JVal) : Except JErr JVal :=
  match getProp parent part with
  | some (.obj es) =>
      match lookupEntry es method with
      | some (.fn i b pr) =>
          .ok (setProp parent part (.obj (setEntry es method (.arr [.fn i b pr, route]))))
      | some (.arr hs) =>
          .ok (setProp parent part (.obj (setEntry es method (.arr (hs ++ [route])))))
      | some (.obj _) => .error .typeError
      | some (.str _) => .error (.invalidContext "object")
      | none => .ok (setProp parent part (.obj (setEntry es method route)))
  | some (.fn _ _ _) => .error (.invalidContext "function")
  | some (.arr _) => .error (.invalidContext "object")
  | some (.str _) => .error (.invalidContext "string")
  | none => .ok (setProp parent part (.obj [(method, route)]))

/-- `Router.prototype.insert` (source lines 499-581), as a function from the
parent node to the updated parent node.  `isRoot` models the
`parent === this.routes` reference test, true exactly for the outermost
call.  An empty path at the root inserts into the root's method slot
(source lines 532-548; a string-valued slot falls through the switch and the
call silently does nothing); an empty path elsewhere writes the JS property
key `"undefined"`. -/
def insertAux (params : List (JStr → JStr)) (method : JStr) :
    List JStr → JVal → JVal → Bool → Except JErr JVal
  | [], route, parent, isRoot =>
      if isRoot then
        match getProp parent method with
        | some (.fn i b pr) => .ok (setProp parent method (.arr [.fn i b pr, route]))
        | some (.arr hs) => .ok (setProp parent method (.arr (hs ++ [route])))
        | some (.obj _) => .error .typeError
        | some (.str _) => .ok parent
        | none => .ok (setProp parent method route)
      else insertFinal method (jstr "undefined") route parent
  | part0 :: rest, route, parent, _ =>
      let part := if hasChar part0 ':' || hasChar part0 '*'
                  then regifyString part0 params else part0
      if rest ≠ [] then
        let child := match getProp parent part with
          | some v => if truthy (some v) then v else .obj []
          | none => .obj []
        match insertAux params method rest route child false with
        | .ok child2 => .ok (setProp parent part child2)
        | .error e => .error e
      else insertFinal method part route parent

/-- `Router.prototype.insert` proper: filter out empty segments, then walk.
(The source re-runs the filter on entry to every recursive call; on the
already-filtered remainder that is the identity, so the filter is applied
once here.) -/
def insert (params : List (JStr → JStr)) (method : JStr) (path0 : List JStr)
    (route : JVal) (parent : JVal) (isRoot : Bool) : Except JErr JVal :=
  insertAux params method (path0.filter (fun p => !p.isEmpty)) route parent isRoot

/-- A table value that is not a plain (non-array) object: a function, a
string, or an array. -/
def isNotPlainObj : JVal → Bool
  | .obj _ => false
  | _ => true

/-!
## Invocation engine (`_every`, `_asyncEverySeries`, `Router.prototype.invoke`)
-/

/-- The `thisArg` a handler is applied with: the router itself, or the ad-hoc
`{ method: method, path: path }` object passed to the not-found handler. -/
inductive ThisArg where
  | router
  | methodPath (m p : JStr)
deriving DecidableEq

/-- Observable invocation events: a handler function called with arguments,
or a resource method (string handler) called. -/
inductive Ev where
  | call (id : Nat) (thisA : ThisArg) (args : List JStr)
  | rescall (name : JStr) (thisA : ThisArg) (args : List JStr)
deriving DecidableEq

mutual
/-- The `apply` closure of the synchronous branch of
`Router.prototype.invoke` (source lines 350-360): returns the trace of the
entry and whether the value it returns to `_every` is exactly `false`.
Arrays recurse through `_every` (whose result, `undefined`, is never
`false`); functions are applied with the captures (`fns.captures || null`);
strings are looked up on the resource when one is configured (their return
value is discarded); anything else falls through every branch. -/
def applySync (res : Bool) (thisA : ThisArg) (caps : List JStr) : JVal → List Ev × Bool
  | .arr fnList => (everySync res thisA caps fnList, false)
  | .fn id beh _ => ([.call id thisA caps], beh.sret == HRet.rfalse)
  | .str name => (if res then [.rescall name thisA caps] else [], false)
  | .obj _ => ([], false)

/-- `_every(arr, iterator)` (source lines 26-32): walk the entries in order
and stop as soon as the iterator returns exactly `false`. -/
def everySync (res : Bool) (thisA : ThisArg) (caps : List JStr) : List JVal → List Ev
  | [] => []
  | e :: rest =>
      match applySync res thisA caps e with
      | (t, true) => t
      | (t, false) => t ++ everySync res thisA caps rest
end

/-- Outcome of an asynchronous series: terminal callback reached without
error, terminal callback reached with an error/`false` value, or the series
stalled (an entry's iterator never invoked its continuation, so neither the
remaining entries nor the terminal callback ever run). -/
inductive AOut where
  | done
  | failed
  | stalled
deriving DecidableEq

/-- `_asyncEverySeries` (source lines 38-61) driven by the iterator of the
asynchronous branch of `Router.prototype.invoke` (source lines 334-348).
For a function entry the iterator evaluates `fns.captures.concat(next)` —
a `TypeError` when the run-list has no captures array — and the handler then
reports to its continuation; an error or `false` report stops the series
with the terminal callback informed.  For any non-function entry the
iterator returns without calling `next`: the series stalls. -/
def asyncIter (thisA : ThisArg) (capsOpt : Option (List JStr)) :
    List JVal → Except JErr (List Ev × AOut)
  | [] => .ok ([], .done)
  | f :: rest =>
      match f with
      | .fn id beh _ =>
          match capsOpt with
          | none => .error .typeError
          | some caps =>
              match beh.aret with
              | .afail => .ok ([.call id thisA caps], .failed)
              | .aok =>
                  match asyncIter thisA capsOpt rest with
                  | .ok (t, o) => .ok (.call id thisA caps :: t, o)
                  | .error e => .error e
      | _ => .ok ([], .stalled)

/-- `Router.prototype.invoke` (source lines 331-362): asynchronous mode runs
the series; synchronous mode runs `_every` with `fns.captures || null` as
the arguments (no error possible, and the callback is never consulted). -/
def invoke (async res : Bool) (fns : List JVal) (capsOpt : Option (List JStr))
    (thisA : ThisArg) : Except JErr (List Ev × AOut) :=
  if async then asyncIter thisA capsOpt fns
  else .ok (everySync res thisA (capsOpt.getD []) fns, .done)

/-!
## Regular expressions

`traverse` builds regex source strings by concatenation and matches them
with `path.match(new RegExp('^' + exact))`.  The fragment language the
router constructs — literals, `.`, character classes, capturing groups, and
the greedy quantifiers `+`, `*`, `?` on single-character atoms — is parsed
from the source string and matched with the anchored, greedy, backtracking
semantics of JS regexes.  Unsupported constructs make the parse fail (and
the match report no match).
-/

/-- One item of a character class: a single character or a range. -/
inductive ClsItem where
  | single (c : Char)
  | range (a b : Char)
deriving DecidableEq

/-- A single-character matcher: `.`, a literal, or a class. -/
inductive Atom where
  | any
  | lit (c : Char)
  | cls (neg : Bool) (items : List ClsItem)
deriving DecidableEq

/-- Parsed regex fragments.  Quantifiers apply to single-character atoms
only (all the router's compiled fragments have this shape); groups are
capturing and numbered in order of their opening parenthesis. -/
inductive RE where
  | atom (a : Atom)
  | plus (a : Atom)
  | star (a : Atom)
  | opt (a : Atom)
  | grp (i : Nat) (inner : List RE)

/-- Read one character unit inside a class: an identity escape (JS treats
`\x` for non-alphanumeric `x` as `x`) or a plain character.  `]` ends the
class and alphanumeric escape classes (`\d`, …) are unsupported. -/
def readCU : JStr → Option (Char × JStr)
  | '\\' :: c :: rest => if c.isAlpha ∨ c.isDigit then none else some (c, rest)
  | '\\' :: [] => none
  | ']' :: _ => none
  | c :: rest => some (c, rest)
  | [] => none

/-- Parse the items of a character class body, up to the closing `]`. -/
def parseClsItems : Nat → JStr → Option (List ClsItem × JStr)
  | _, ']' :: rest => some ([], rest)
  | 0, _ => none
  | fuel + 1, s =>
      match readCU s with
      | none => none
      | some (c1, s1) =>
          match s1 with
          | '-' :: ']' :: s2 => some ([.single c1, .single '-'], s2)
          | '-' :: d :: s2 =>
              match readCU (d :: s2) with
              | none => none
              | some (c2, s3) =>
                  match parseClsItems fuel s3 with
                  | none => none
                  | some (items, r) => some (.range c1 c2 :: items, r)
          | _ =>
              match parseClsItems fuel s1 with
              | none => none
              | some (items, r) => some (.single c1 :: items, r)

/-- Apply an optional postfix quantifier to an atom. -/
def applyQuant (a : Atom) : JStr → RE × JStr
  | '+' :: r => (.plus a, r)
  | '*' :: r => (.star a, r)
  | '?' :: r => (.opt a, r)
  | r => (.atom a, r)

/-- Characters that cannot stand as bare literals in a pattern. -/
def isMetaChar (c : Char) : Bool :=
  c = '(' ∨ c = ')' ∨ c = '[' ∨ c = '+' ∨ c = '*' ∨ c = '?' ∨ c = '\\' ∨
  c = '|' ∨ c = '^' ∨ c = '$' ∨ c = '{' ∨ c = '}' ∨ c = '.'

/-- Parse a sequence of regex items, stopping at `)` or the end; `gi` is the
next capturing-group index. -/
def parseRE : Nat → JStr → Nat → Option (List RE × JStr × Nat)
  | _, [], gi => some ([], [], gi)
  | _, ')' :: rest, gi => some ([], ')' :: rest, gi)
  | 0, _, _ => none
  | fuel + 1, s, gi =>
      match s with
      | [] => some ([], [], gi)
      | '(' :: rest =>
          match parseRE fuel rest (gi + 1) with
          | none => none
          | some (inner, rest1, gi2) =>
              match rest1 with
              | ')' :: rest2 =>
                  match rest2 with
                  | q :: _ =>
                      if q = '+' ∨ q = '*' ∨ q = '?' then none
                      else
                        match parseRE fuel rest2 gi2 with
                        | none => none
                        | some (items, rest3, gi3) => some (.grp gi inner :: items, rest3, gi3)
                  | [] =>
                      match parseRE fuel rest2 gi2 with
                      | none => none
                      | some (items, rest3, gi3) => some (.grp gi inner :: items, rest3, gi3)
              | _ => none
      | '[' :: rest =>
          let negRest := match rest with
            | '^' :: r => (true, r)
            | r => (false, r)
          match parseClsItems (fuel + 1) negRest.2 with
          | none => none
          | some (items, rest1) =>
              let q := applyQuant (.cls negRest.1 items) rest1
              match parseRE fuel q.2 gi with
              | none => none
              | some (items2, rest2, gi2) => some (q.1 :: items2, rest2, gi2)
      | '\\' :: c :: rest =>
          if c.isAlpha ∨ c.isDigit then none
          else
            let q := applyQuant (.lit c) rest
            match parseRE fuel q.2 gi with
            | none => none
            | some (items, rest1, gi1) => some (q.1 :: items, rest1, gi1)
      | '.' :: rest =>
          let q := applyQuant Atom.any rest
          match parseRE fuel q.2 gi with
          | none => none
          | some (items, rest1, gi1) => some (q.1 :: items, rest1, gi1)
      | c :: rest =>
          if isMetaChar c then none
          else
            let q := applyQuant (.lit c) rest
            match parseRE fuel q.2 gi with
            | none => none
            | some (items, rest1, gi1) => some (q.1 :: items, rest1, gi1)

/-- Parse a whole pattern; returns the item sequence and the number of
capturing groups. -/
def parseRegex (pat : JStr) : Option (List RE × Nat) :=
  match parseRE (pat.length + 1) pat 1 with
  | some (items, [], gi) => some (items, gi - 1)
  | _ => none

/-- Does a character match a class item? -/
def clsItemMatch (c : Char) : ClsItem → Bool
  | .single d => c = d
  | .range a b => a ≤ c ∧ c ≤ b

/-- Does a character match an atom? -/
def atomMatch (a : Atom) (c : Char) : Bool :=
  match a with
  | .any => true
  | .lit d => c = d
  | .cls neg items =>
      let m := items.any (clsItemMatch c)
      if neg then !m else m

/-- Record a capture (overwriting any previous value of the group). -/
def setCap (i : Nat) (v : JStr) : List (Nat × JStr) → List (Nat × JStr)
  | [] => [(i, v)]
  | (j, w) :: rest => if j = i then (i, v) :: rest else (j, w) :: setCap i v rest

/-- Look up a capture. -/
def lookupCap (i : Nat) : List (Nat × JStr) → Option JStr
  | [] => none
  | (j, w) :: rest => if j = i then some w else lookupCap i rest

/-- The groups `1..n` of a match result, in index order. -/
def capList (n : Nat) (cps : List (Nat × JStr)) : List JStr :=
  (List.range n).map (fun j => (lookupCap (j + 1) cps).getD [])

mutual
/-- Greedy backtracking matcher for a fragment sequence, in
continuation-passing style; `k` receives the remaining input and captures. -/
def runSeq : List RE → JStr → List (Nat × JStr) →
    (JStr → List (Nat × JStr) → Option (JStr × List (Nat × JStr))) →
    Option (JStr × List (Nat × JStr))
  | [], s, cps, k => k s cps
  | .atom a :: rest, s, cps, k =>
      match s with
      | [] => none
      | c :: t => if atomMatch a c then runSeq rest t cps k else none
  | .plus a :: rest, s, cps, k =>
      tryFrom rest s cps k ((s.takeWhile (atomMatch a)).length) false
  | .star a :: rest, s, cps, k =>
      tryFrom rest s cps k ((s.takeWhile (atomMatch a)).length) true
  | .opt a :: rest, s, cps, k =>
      match s with
      | c :: t =>
          if atomMatch a c then
            match runSeq rest t cps k with
            | some res => some res
            | none => runSeq rest s cps k
          else runSeq rest s cps k
      | [] => runSeq rest [] cps k
  | .grp i inner :: rest, s, cps, k =>
      runSeq inner s cps (fun s2 cps2 =>
        runSeq rest s2 (setCap i (s.take (s.length - s2.length)) cps2) k)

/-- Greedy quantifier driver: try consuming `n` characters of the run, then
`n-1`, …; `allowZero` distinguishes `*` from `+`. -/
def tryFrom : List RE → JStr → List (Nat × JStr) →
    (JStr → List (Nat × JStr) → Option (JStr × List (Nat × JStr))) →
    Nat → Bool → Option (JStr × List (Nat × JStr))
  | rest, s, cps, k, 0, allowZero =>
      if allowZero then runSeq rest s cps k else none
  | rest, s, cps, k, n + 1, allowZero =>
      match runSeq rest (s.drop (n + 1)) cps k with
      | some res => some res
      | none => tryFrom rest s cps k n allowZero
end

/-- `path.match(new RegExp('^' + pat))`: anchored match returning the
matched prefix and the capture groups (or `none` for no match, including an
unsupported pattern). -/
def jsMatchAnchored (pat : JStr) (s : JStr) : Option (JStr × List JStr) :=
  match parseRegex pat with
  | none => none
  | some (items, ngroups) =>
      match runSeq items s [] (fun rem cps => some (rem, cps)) with
      | none => none
      | some (rem, cps) => some (s.take (s.length - rem.length), capList ngroups cps)

/-!
## Traversal (`Router.prototype.traverse`)
-/

/-- The `recurse` configuration flag: `false`, `true`, or `'forward'`. -/
inductive Rec where
  | off
  | up
  | forward
deriving DecidableEq

/-- Router instance configuration (`Router.prototype.configure`):
`methodsSet` is the set of keys of `this._methods`, `resource` records
whether a resource object is configured, and the `every*` fields are the
global hooks. -/
structure Conf where
  recurse : Rec
  async : Bool
  delimiter : JStr
  strict : Bool
  methodsSet : List JStr
  everyBefore : Option JVal
  everyOn : Option JVal
  everyAfter : Option JVal
  notfound : Option JVal
  resource : Bool

/-- The result array of a successful traversal: its elements (handler
layers), and its `after` and `captures` properties. -/
structure TravRes where
  fns : List (List JVal)
  after : List JVal
  captures : List JStr

/-- `[a, b].filter(Boolean)` over possibly-absent table values. -/
def filterTruthy (l : List (Option JVal)) : List JVal :=
  l.filterMap (fun o => match o with
    | some v => if truthy (some v) then some v else none
    | none => none)

/-- The cumulative pattern a traversal level matches against
(source lines 414-418): `regexp + delimiter + r`, plus an optional trailing
`[delimiter]?` when the router is not strict. -/
def segExact (strict : Bool) (delim rx r : JStr) : JStr :=
  if strict then rx ++ delim ++ r
  else rx ++ delim ++ r ++ (jstr "[" ++ delim ++ jstr "]?")

/-- The terminal-match test of a traversal level (source lines 420-433):
anchored-match the cumulative pattern and require a nonempty `match[0]`
equal to the whole path. -/
def exactMatchTest (strict : Bool) (delim rx r path : JStr) : Bool :=
  match jsMatchAnchored (segExact strict delim rx r) path with
  | some (m0, _) => m0 ≠ [] ∧ m0 = path
  | none => false

mutual
/-- `Router.prototype.traverse` (source lines 374-487).  Base case 1: a
bare-delimiter path with a method handler at this node short-circuits.
Otherwise iterate the node's keys in insertion order (`travLoop`). -/
def traverse (cfg : Conf) (method path : JStr) (routes : JVal) (rx : JStr) :
    Option TravRes :=
  if path = cfg.delimiter ∧ truthy (getProp routes method) then
    some ⟨[filterTruthy [getProp routes (jstr "before"), getProp routes method]],
          filterTruthy [getProp routes (jstr "after")], []⟩
  else
    match routes with
    | .obj es => travLoop cfg method path es rx
    | .fn _ _ props => travLoop cfg method path props rx
    | _ => none

/-- The `for (var r in routes)` loop of `traverse`: skip method-named keys
unless they hold a plain object; try an exact match of the cumulative
pattern (terminal case), otherwise recurse into the child and, on success,
splice this node's hooks according to `recurse`; on failure move to the
next sibling. -/
def travLoop (cfg : Conf) (method path : JStr) :
    List (JStr × JVal) → JStr → Option TravRes
  | [], _ => none
  | (r, v) :: rest, rx =>
      if (!(cfg.methodsSet.contains r) ||
          (cfg.methodsSet.contains r &&
            (match v with | JVal.obj _ => true | _ => false))) then
        let current := rx ++ cfg.delimiter ++ r
        match jsMatchAnchored (segExact cfg.strict cfg.delimiter rx r) path with
        | none => travLoop cfg method path rest rx
        | some (m0, grps) =>
            if m0 ≠ [] ∧ m0 = path ∧ truthy (getProp v method) then
              some ⟨[filterTruthy [getProp v (jstr "before"), getProp v method]],
                    filterTruthy [getProp v (jstr "after")], grps⟩
            else
              match traverse cfg method path v current with
              | some next =>
                  let fns0 := if next.fns.length > 0 then
                    ([] : List (List JVal)) ++ next.fns else []
                  some ⟨(if cfg.recurse ≠ Rec.off then
                           fns0 ++ [filterTruthy [getProp v (jstr "before"),
                                                  getProp v (jstr "on")]]
                         else fns0),
                        (if cfg.recurse ≠ Rec.off then
                           next.after ++ filterTruthy [getProp v (jstr "after")]
                         else next.after),
                        next.captures⟩
              | none => travLoop cfg method path rest rx
      else travLoop cfg method path rest rx
end

/-- The configuration produced by `new Router().configure()` with no
options: not recursing, synchronous, delimiter `/`, strict, the three
reserved method names, no global hooks, no not-found handler, no
resource. -/
def cfgDefault : Conf :=
  ⟨Rec.off, false, jstr "/", true, [jstr "on", jstr "after", jstr "before"],
   none, none, none, none, false⟩

/-!
## Dispatch (`Router.prototype.dispatch`, `Router.prototype.runlist`)
-/

/-- The per-instance mutable state used by `dispatch`: the routing table,
the `after` layer recorded by the previous dispatch (`this.last`), and
whether a dispatch has already happened (`this._invoked`). -/
structure RState where
  routes : JVal
  last : List JVal
  invoked : Bool

/-- `Router.prototype.runlist` (source lines 308-320): global `before` hook,
flattened matched layers, then the global `on` hook. -/
def runlist (cfg : Conf) (res : TravRes) : List JVal :=
  (match cfg.everyBefore with
   | some b => b :: res.fns.flatten
   | none => res.fns.flatten) ++
  (match cfg.everyOn with | some o => [o] | none => [])

/-- `Router.prototype.dispatch` (source lines 243-296).  Returns the boolean
result, the updated state, and the trace of handler invocations; a thrown
`TypeError` (async invocation of a captures-less run-list) propagates as the
`Except` error.  On a failed traversal the not-found handler, when
configured as a function, is invoked through `invoke` with
`{method, path}` as `thisArg`.  On success: with `recurse === 'forward'`
the layer list is reversed; if a previous dispatch happened, the prior
after-layer (prefixed by the global `after` hook, or wrapped in a
one-element array) runs first — asynchronously this defers the main
run-list to the continuation, and a stalled series never reaches it. -/
def dispatch (cfg : Conf) (st : RState) (m p : JStr) :
    Except JErr (Bool × RState × List Ev) :=
  let fnsO := traverse cfg m p st.routes []
  let invoked := st.invoked
  let notFoundStep : Except JErr (Bool × RState × List Ev) :=
    let st1 : RState := ⟨st.routes, [], true⟩
    match cfg.notfound with
    | some nf =>
        if (match nf with | JVal.fn _ _ _ => true | _ => false) then
          match invoke cfg.async cfg.resource [nf] none (.methodPath m p) with
          | .error e => .error e
          | .ok (t, _) => .ok (false, st1, t)
        else .ok (false, st1, [])
    | none => .ok (false, st1, [])
  match fnsO with
  | none => notFoundStep
  | some res =>
      if res.fns.length = 0 then notFoundStep
      else
        let res1 := if cfg.recurse = Rec.forward then
          TravRes.mk res.fns.reverse res.after res.captures else res
        let after : List JVal := match cfg.everyAfter with
          | some ea => ea :: st.last
          | none => [JVal.arr st.last]
        let updateAndInvoke : Except JErr (RState × List Ev) :=
          match invoke cfg.async cfg.resource (runlist cfg res1)
              (some res1.captures) .router with
          | .error e => .error e
          | .ok (t2, _) => .ok (⟨st.routes, res1.after, true⟩, t2)
        if invoked then
          if cfg.async then
            match invoke true cfg.resource after none .router with
            | .error e => .error e
            | .ok (t1, AOut.stalled) => .ok (true, ⟨st.routes, st.last, true⟩, t1)
            | .ok (t1, _) =>
                match updateAndInvoke with
                | .error e => .error e
                | .ok (st2, t2) => .ok (true, st2, t1 ++ t2)
          else
            match invoke false cfg.resource after none .router with
            | .error e => .error e
            | .ok (t1, _) =>
                match updateAndInvoke with
                | .error e => .error e
                | .ok (st2, t2) => .ok (true, st2, t1 ++ t2)
        else
          match updateAndInvoke with
          | .error e => .error e
          | .ok (st2, t2) => .ok (true, st2, t2)

/-!
## Declaration scoping (`Router.prototype.path`)
-/

/-- `str.split(new RegExp(delim))` for the literal delimiters used by the
router (default `/`): split on every non-overlapping occurrence, keeping
empty pieces.  An empty delimiter splits into single characters (JS empty
regex). -/
def jsSplit (delim : JStr) (s : JStr) : List JStr :=
  if delim = [] then s.map (fun c => [c]) else splitAux delim s []
where
  splitAux (delim : JStr) : JStr → JStr → List JStr
    | [], acc => [acc.reverse]
    | c :: rest, acc =>
        if delim ≠ [] ∧ listPre delim (c :: rest) then
          acc.reverse :: splitAux delim ((c :: rest).drop delim.length) []
        else splitAux delim rest (c :: acc)
  termination_by s _ => s.length
  decreasing_by
    · rename_i h
      simp only [List.length_drop, List.length_cons]
      rcases h with ⟨hne, _⟩
      have : delim.length ≠ 0 := by simpa [List.length_eq_zero] using hne
      omega
    · simp

/-- `Router.prototype.path` (source lines 219-232), restricted to its effect
on the scope sequence.  `routesFn` is the declaration function's effect on
the scope (the API calls it may make read and, through nested `path` calls,
temporarily extend it).  After evaluating it, `splice(length, path.length)`
removes `path.length` elements starting at the old length. -/
def pathOp (delim : JStr) (p : JStr) (routesFn : List JStr → List JStr)
    (scope : List JStr) : List JStr :=
  let length := scope.length
  let parts := jsSplit delim p
  let scope2 := routesFn (scope ++ parts)
  scope2.take length ++ scope2.drop (length + parts.length)

/-!
## Facts about the pattern compiler
-/

lemma paramLoop_unchanged (tok : JStr) (fs : List (JStr → JStr))
    (h : ∀ g ∈ fs, g tok = tok) : paramLoop tok fs = tok := by
  induction fs with
  | nil => rfl
  | cons f rest ih =>
      have hf : f tok = tok := h f (by simp)
      simp only [paramLoop, hf, ne_eq, not_true_eq_false, if_false]
      exact ih (fun g hg => h g (by simp [hg]))

lemma paramLoop_first_win (tok : JStr) (fs₁ fs₂ : List (JStr → JStr))
    (f : JStr → JStr) (h1 : ∀ g ∈ fs₁, g tok = tok) (h2 : f tok ≠ tok) :
    paramLoop tok (fs₁ ++ f :: fs₂) = f tok := by
  induction fs₁ with
  | nil => simp [paramLoop, h2]
  | cons g rest ih =>
      have hg : g tok = tok := h1 g (by simp)
      simp only [List.cons_append, paramLoop, hg, ne_eq, not_true_eq_false, if_false]
      exact ih (fun g' hg' => h1 g' (by simp [hg']))

/-- Every token scanned by `colonTokens` is a `:`-headed, nonempty,
delimiter-free run. -/
lemma colonTokens_shape (s : JStr) :
    ∀ t ∈ colonTokens s, ∃ b, t = ':' :: b ∧ b ≠ [] ∧ ∀ c ∈ b, ¬ c = '/' := by
  induction s using colonTokens.induct with
  | case1 => simp [colonTokens]
  | case2 rest tok htok ih =>
      intro t ht
      rw [colonTokens] at ht
      rw [if_pos rfl, if_pos htok] at ht
      exact ih t ht
  | case3 rest tok htok ih =>
      intro t ht
      rw [colonTokens] at ht
      rw [if_pos rfl, if_neg htok] at ht
      rcases List.mem_cons.mp ht with h | h
      · refine ⟨rest.takeWhile (fun d => d ≠ '/'), h, htok, ?_⟩
        intro x hx
        simpa using List.mem_takeWhile_imp hx
      · exact ih t h
  | case4 c rest hc ih =>
      intro t ht
      rw [colonTokens] at ht
      simp only [if_neg hc] at ht
      exact ih t ht

lemma hasChar_iff_mem (s : JStr) (c : Char) : hasChar s c ↔ c ∈ s := by
  simp [hasChar]

lemma colonTokens_nil : colonTokens [] = [] := by rw [colonTokens]

lemma colonTokens_leftover (rest : JStr)
    (h : List.takeWhile (fun d => d ≠ '/') rest = []) :
    colonTokens (':' :: rest) = colonTokens rest := by
  rw [colonTokens, if_pos rfl, if_pos h]

lemma colonTokens_token (rest : JStr)
    (h : ¬ List.takeWhile (fun d => d ≠ '/') rest = []) :
    colonTokens (':' :: rest) =
      (':' :: rest.takeWhile (fun d => d ≠ '/')) ::
        colonTokens (rest.drop (rest.takeWhile (fun d => d ≠ '/')).length) := by
  rw [colonTokens, if_pos rfl, if_neg h]

lemma colonTokens_other (c : Char) (rest : JStr) (h : ¬ c = ':') :
    colonTokens (c :: rest) = colonTokens rest := by
  rw [colonTokens, if_neg h]

lemma replaceTokens_nil : replaceTokens [] = [] := by rw [replaceTokens]

lemma replaceTokens_leftover (rest : JStr)
    (h : List.takeWhile (fun d => d ≠ '/') rest = []) :
    replaceTokens (':' :: rest) = ':' :: replaceTokens rest := by
  rw [replaceTokens, if_pos rfl, if_pos h]

lemma replaceTokens_token (rest : JStr)
    (h : ¬ List.takeWhile (fun d => d ≠ '/') rest = []) :
    replaceTokens (':' :: rest) =
      defaultParam ++
        replaceTokens (rest.drop (rest.takeWhile (fun d => d ≠ '/')).length) := by
  rw [replaceTokens, if_pos rfl, if_neg h]

lemma replaceTokens_other (c : Char) (rest : JStr) (h : ¬ c = ':') :
    replaceTokens (c :: rest) = c :: replaceTokens rest := by
  rw [replaceTokens, if_neg h]

lemma paramifyString_nil (c : JStr) : paramifyString c [] = defaultParam := by
  simp [paramifyString, paramLoop]

lemma listPre_takeWhile (p : Char → Bool) (l : JStr) :
    listPre (l.takeWhile p) l = true := by
  induction l with
  | nil => rfl
  | cons c rest ih =>
      by_cases h : p c
      · simp [List.takeWhile, h, listPre, ih]
      · simp [List.takeWhile, h, listPre]

lemma replaceFirst_append_nocolon (a : JStr) (x t r : JStr)
    (ha : ∀ c ∈ a, c ≠ ':') (ht : ∃ b, t = ':' :: b) :
    replaceFirst (a ++ x) t r = a ++ replaceFirst x t r := by
  induction a with
  | nil => rfl
  | cons c a' ih =>
      rcases ht with ⟨b, rfl⟩
      have hc : c ≠ ':' := ha c (by simp)
      have hpre : listPre (':' :: b) (c :: (a' ++ x)) = false := by
        simp [listPre, Ne.symm hc]
      simp only [List.cons_append, replaceFirst, hpre, Bool.false_eq_true, if_false]
      rw [show a'.append x = a' ++ x from rfl, ih (fun d hd => ha d (by simp [hd]))]

lemma foldl_replaceFirst_append (toks : List JStr) (a x : JStr)
    (ha : ∀ c ∈ a, c ≠ ':')
    (htoks : ∀ t ∈ toks, ∃ b, t = ':' :: b) :
    toks.foldl (fun acc c => replaceFirst acc c (paramifyString c [])) (a ++ x)
      = a ++ toks.foldl (fun acc c => replaceFirst acc c (paramifyString c [])) x := by
  induction toks generalizing x with
  | nil => rfl
  | cons t toks' ih =>
      simp only [List.foldl_cons]
      rw [replaceFirst_append_nocolon a x t _ ha (htoks t (by simp))]
      exact ih _ (fun u hu => htoks u (by simp [hu]))

lemma replaceFirst_leftover (rest t r : JStr)
    (hrest : rest = [] ∨ ∃ r', rest = '/' :: r')
    (ht : ∃ b0 b', t = ':' :: b0 :: b' ∧ b0 ≠ '/') :
    replaceFirst (':' :: rest) t r = ':' :: replaceFirst rest t r := by
  rcases ht with ⟨b0, b', rfl, hb0⟩
  have hpre : listPre (':' :: b0 :: b') (':' :: rest) = false := by
    rcases hrest with rfl | ⟨r', rfl⟩
    · simp [listPre]
    · simp [listPre, hb0]
  simp only [replaceFirst, hpre, Bool.false_eq_true, if_false]

lemma foldl_replaceFirst_leftover (toks : List JStr) (rest : JStr)
    (hrest : rest = [] ∨ ∃ r', rest = '/' :: r')
    (htoks : ∀ t ∈ toks, ∃ b0 b', t = ':' :: b0 :: b' ∧ b0 ≠ '/') :
    toks.foldl (fun acc c => replaceFirst acc c (paramifyString c [])) (':' :: rest)
      = ':' :: toks.foldl (fun acc c => replaceFirst acc c (paramifyString c [])) rest := by
  induction toks generalizing rest with
  | nil => rfl
  | cons t toks' ih =>
      simp only [List.foldl_cons]
      rw [replaceFirst_leftover rest t _ hrest (htoks t (by simp))]
      have hrest' : replaceFirst rest t (paramifyString t []) = [] ∨
          ∃ r', replaceFirst rest t (paramifyString t []) = '/' :: r' := by
        rcases htoks t (by simp) with ⟨b0, b', rfl, hb0⟩
        rcases hrest with rfl | ⟨r', rfl⟩
        · exact Or.inl (by simp [replaceFirst, listPre])
        · refine Or.inr ⟨replaceFirst r' (':' :: b0 :: b')
            (paramifyString (':' :: b0 :: b') []), ?_⟩
          have : listPre (':' :: b0 :: b') ('/' :: r') = false := by simp [listPre]
          simp only [replaceFirst, this, Bool.false_eq_true, if_false]
      exact ih _ hrest' (fun u hu => htoks u (by simp [hu]))

lemma takeWhile_slash_nil (rest : JStr)
    (h : List.takeWhile (fun d => d ≠ '/') rest = []) :
    rest = [] ∨ ∃ r', rest = '/' :: r' := by
  cases rest with
  | nil => exact Or.inl rfl
  | cons c r' =>
      by_cases hc : c = '/'
      · exact Or.inr ⟨r', by rw [hc]⟩
      · exfalso
        simp [List.takeWhile_cons, hc] at h

/-- Strengthened token shape for use with `replaceFirst_leftover`. -/
lemma colonTokens_shape' (s : JStr) :
    ∀ t ∈ colonTokens s, ∃ b0 b', t = ':' :: b0 :: b' ∧ b0 ≠ '/' := by
  intro t ht
  rcases colonTokens_shape s t ht with ⟨b, rfl, hne, hall⟩
  cases b with
  | nil => exact absurd rfl hne
  | cons b0 b' => exact ⟨b0, b', rfl, hall b0 (by simp)⟩

/-- With no substitutions registered, the capture-replacement loop of
`regifyString` rewrites exactly the scanned tokens, in place. -/
lemma foldl_colonTokens_eq_replaceTokens (s : JStr) :
    (colonTokens s).foldl
      (fun acc c => replaceFirst acc c (paramifyString c [])) s
      = replaceTokens s := by
  induction s using colonTokens.induct with
  | case1 => rw [colonTokens_nil, replaceTokens_nil]; rfl
  | case2 rest tok htok ih =>
      rw [colonTokens_leftover rest htok, replaceTokens_leftover rest htok]
      rw [foldl_replaceFirst_leftover _ _ (takeWhile_slash_nil rest htok)
        (colonTokens_shape' rest), ih]
  | case3 rest tok htok ih =>
      rw [colonTokens_token rest htok, replaceTokens_token rest htok]
      simp only [List.foldl_cons]
      have hpre : listPre (':' :: rest.takeWhile (fun d => d ≠ '/')) (':' :: rest) = true := by
        simp only [listPre, listPre_takeWhile, Bool.and_true]
        simp
      rw [show replaceFirst (':' :: rest) (':' :: rest.takeWhile (fun d => d ≠ '/'))
            (paramifyString (':' :: rest.takeWhile (fun d => d ≠ '/')) [])
          = defaultParam ++ rest.drop (rest.takeWhile (fun d => d ≠ '/')).length by
        rw [replaceFirst, if_pos hpre, paramifyString_nil]
        simp]
      rw [foldl_replaceFirst_append _ _ _ (by decide) ?_, ih]
      intro t ht
      rcases colonTokens_shape _ t ht with ⟨b, rfl, _, _⟩
      exact ⟨b, rfl⟩
  | case4 c rest hc ih =>
      rw [colonTokens_other c rest hc, replaceTokens_other c rest hc]
      rw [show (c :: rest : JStr) = [c] ++ rest from rfl]
      rw [foldl_replaceFirst_append _ _ _ (by simpa using hc) ?_]
      · rw [ih]
        rfl
      · intro t ht
        rcases colonTokens_shape _ t ht with ⟨b, rfl, _, _⟩
        exact ⟨b, rfl⟩

lemma colonTokens_append_nocolon (a x : JStr) (ha : ∀ c ∈ a, c ≠ ':') :
    colonTokens (a ++ x) = colonTokens x := by
  induction a with
  | nil => rfl
  | cons c a' ih =>
      have hc : ¬ c = ':' := ha c (by simp)
      rw [List.cons_append, colonTokens_other c _ hc]
      exact ih (fun d hd => ha d (by simp [hd]))

lemma colonTokens_replaceTokens (s : JStr) :
    colonTokens (replaceTokens s) = [] := by
  induction s using replaceTokens.induct with
  | case1 => rw [replaceTokens_nil, colonTokens_nil]
  | case2 rest tok htok ih =>
      rw [replaceTokens_leftover rest htok]
      rcases takeWhile_slash_nil rest htok with rfl | ⟨r', rfl⟩
      · rw [replaceTokens_nil]
        rw [colonTokens_leftover [] (by simp), colonTokens_nil]
      · rw [replaceTokens_other '/' r' (by decide)] at ih ⊢
        rw [colonTokens_leftover _ (by simp [List.takeWhile_cons])]
        exact ih
  | case3 rest tok htok ih =>
      rw [replaceTokens_token rest htok]
      rw [colonTokens_append_nocolon _ _ (by decide)]
      exact ih
  | case4 c rest hc ih =>
      rw [replaceTokens_other c rest hc, colonTokens_other c _ hc]
      exact ih

lemma replaceStar_no_star (s : JStr) : '*' ∉ replaceStar s := by
  induction s with
  | nil => simp [replaceStar]
  | cons c rest ih =>
      by_cases hc : c = '*'
      · simp only [replaceStar, if_pos hc, List.mem_append]
        rintro (h | h)
        · exact absurd h (by decide)
        · exact ih h
      · simp only [replaceStar, if_neg hc, List.mem_cons]
        rintro (h | h)
        · exact hc h.symm
        · exact ih h

lemma replaceTokens_no_star (s : JStr) (hs : '*' ∉ s) : '*' ∉ replaceTokens s := by
  induction s using replaceTokens.induct with
  | case1 => simp [replaceTokens_nil]
  | case2 rest tok htok ih =>
      rw [replaceTokens_leftover rest htok]
      simp only [List.mem_cons]
      rintro (h | h)
      · exact absurd h (by decide)
      · exact ih (fun hm => hs (by simp [hm])) h
  | case3 rest tok htok ih =>
      rw [replaceTokens_token rest htok]
      simp only [List.mem_append]
      rintro (h | h)
      · exact absurd h (by decide)
      · refine ih (fun hm => hs ?_) h
        have := List.drop_subset ((rest.takeWhile (fun d => d ≠ '/')).length) rest
        simp only [List.mem_cons]
        exact Or.inr (this hm)
  | case4 c rest hc ih =>
      rw [replaceTokens_other c rest hc]
      simp only [List.mem_cons]
      rintro (h | h)
      · exact hs (by rw [h]; exact List.mem_cons_self _ _)
      · exact ih (fun hm => hs (by simp [hm])) h

/-- The first stage of `regifyString`: wildcard expansion, guarded by
`~str.indexOf('*')`.  Its result never contains `*`. -/
lemma star_stage_no_star (s : JStr) :
    '*' ∉ (if hasChar s '*' then replaceStar s else s) := by
  by_cases h : hasChar s '*'
  · simpa [h] using replaceStar_no_star s
  · rw [if_neg h]
    exact fun hm => h ((hasChar_iff_mem s '*').mpr hm)

/-- `regifyString` with no substitutions registered computes the in-place
token rewriting. -/
lemma regifyString_nil_eq (s : JStr) :
    regifyString s [] = replaceTokens (if hasChar s '*' then replaceStar s else s) := by
  rw [regifyString]
  exact foldl_colonTokens_eq_replaceTokens _

/-!
## Facts about insertion
-/

lemma insert_single (params : List (JStr → JStr)) (m s : JStr) (route parent : JVal)
    (b : Bool) (hs0 : s ≠ []) :
    insert params m [s] route parent b =
      insertFinal m (if hasChar s ':' || hasChar s '*' then regifyString s params else s)
        route parent := by
  rw [insert]
  have hf : List.filter (fun p => !List.isEmpty p) [s] = [s] := by
    simp [List.filter, List.isEmpty_eq_false.mpr hs0]
  rw [hf, insertAux]
  simp

lemma insert_pair (params : List (JStr → JStr)) (m s s₂ : JStr) (route parent : JVal)
    (b : Bool) (hs0 : s ≠ []) (hs20 : s₂ ≠ [])
    (hs1 : hasChar s ':' = false) (hs2 : hasChar s '*' = false) :
    insert params m [s, s₂] route parent b =
      match insertAux params m [s₂] route
          (match getProp parent s with
           | some v => if truthy (some v) then v else .obj []
           | none => .obj []) false with
      | .ok child2 => .ok (setProp parent s child2)
      | .error e => .error e := by
  rw [insert]
  have hf : List.filter (fun p => !List.isEmpty p) [s, s₂] = [s, s₂] := by
    simp [List.filter, List.isEmpty_eq_false.mpr hs0, List.isEmpty_eq_false.mpr hs20]
  rw [hf, insertAux]
  simp [hs1, hs2]

/-!
## Facts about the regex engine on literal patterns
-/

lemma listPre_iff (a b : JStr) : listPre a b = true ↔ a <+: b := by
  induction a generalizing b with
  | nil => simp [listPre]
  | cons c as ih =>
      cases b with
      | nil => simp [listPre]
      | cons d bs =>
          simp only [listPre, Bool.and_eq_true, beq_iff_eq, List.cons_prefix_cons]
          exact and_congr Iff.rfl (ih bs)

lemma listPre_take (a b : JStr) (h : listPre a b = true) : b.take a.length = a := by
  rcases (listPre_iff a b).mp h with ⟨t, rfl⟩
  simp

lemma listPre_length (a b : JStr) (h : listPre a b = true) : a.length ≤ b.length := by
  exact ((listPre_iff a b).mp h).length_le

lemma listPre_decompose (a b : JStr) (h : listPre a b = true) :
    b = a ++ b.drop a.length := by
  rcases (listPre_iff a b).mp h with ⟨t, rfl⟩
  simp

lemma listPre_append_left (a t b : JStr) (h : listPre (a ++ t) b = true) :
    listPre a b = true := by
  rcases (listPre_iff _ b).mp h with ⟨u, rfl⟩
  exact (listPre_iff _ _).mpr ⟨t ++ u, by simp⟩

/-- Parse of an all-literal string followed by a known-parse tail. -/
lemma parseRE_lit_gen (tail : JStr) (titems : List RE) (tfuel : Nat)
    (htail : ∀ fuel gi, tfuel ≤ fuel →
      parseRE fuel tail gi = some (titems, [], gi))
    (hhead : ∀ c t, tail = c :: t → c ≠ '+' ∧ c ≠ '*' ∧ c ≠ '?')
    (s : JStr) (hs : ∀ c ∈ s, isMetaChar c = false) :
    ∀ fuel gi, s.length + tfuel ≤ fuel →
    parseRE fuel (s ++ tail) gi =
      some (s.map (fun c => RE.atom (Atom.lit c)) ++ titems, [], gi) := by
  induction s with
  | nil =>
      intro fuel gi hf
      simpa using htail fuel gi (by omega)
  | cons c rest ih =>
      intro fuel gi hf
      cases fuel with
      | zero => simp at hf
      | succ f =>
          have hc : isMetaChar c = false := hs c (by simp)
          rw [List.cons_append, parseRE]
          split
          all_goals try (intro h; rw [h] at hc; simp [isMetaChar] at hc)
          all_goals try (intro c1 r1 h1 h2; rw [h1] at hc; simp [isMetaChar] at hc)
          all_goals try (rename_i hmeta; rw [hmeta] at hc; cases hc)
          all_goals try (intro h; exact List.noConfusion h)
          all_goals try (intro r1 h; injection h with h1 h2; rw [h1] at hc; simp [isMetaChar] at hc)
          have hnq : ∀ q, q = '+' ∨ q = '*' ∨ q = '?' →
              ∀ t, rest ++ tail ≠ q :: t := by
            intro q hqm t heq
            cases rest with
            | nil =>
                rw [List.nil_append] at heq
                rcases hqm with rfl | rfl | rfl
                · exact (hhead _ _ heq).1 rfl
                · exact (hhead _ _ heq).2.1 rfl
                · exact (hhead _ _ heq).2.2 rfl
            | cons r0 r' =>
                rw [List.cons_append] at heq
                injection heq with h1 _
                have hm := hs r0 (by simp)
                rw [h1] at hm
                rcases hqm with rfl | rfl | rfl <;> simp [isMetaChar] at hm
          have hq : applyQuant (Atom.lit c) (rest ++ tail) =
              (RE.atom (Atom.lit c), rest ++ tail) := by
            unfold applyQuant
            split
            · rename_i heq
              exact absurd heq (hnq '+' (by simp) _)
            · rename_i heq
              exact absurd heq (hnq '*' (by simp) _)
            · rename_i heq
              exact absurd heq (hnq '?' (by simp) _)
            · rfl
          simp only [hq]
          rw [ih (fun d hd => hs d (by simp [hd])) f gi
            (by simp only [List.length_cons] at hf; omega)]
          simp

/-- Parse of an all-literal pattern. -/
lemma parseRE_lit (s : JStr) (hs : ∀ c ∈ s, isMetaChar c = false) :
    ∀ fuel gi, s.length ≤ fuel →
    parseRE fuel s gi = some (s.map (fun c => RE.atom (Atom.lit c)), [], gi) := by
  intro fuel gi hf
  have := parseRE_lit_gen [] [] 0 (fun fuel gi _ => by cases fuel <;> rfl)
    (fun c t h => List.noConfusion h) s hs fuel gi (by omega)
  simpa using this

/-- Parse of the non-strict trailing fragment `[/]?` for the default
delimiter. -/
lemma parseRE_optslash :
    ∀ fuel gi, 5 ≤ fuel →
    parseRE fuel ('[' :: '/' :: ']' :: '?' :: []) gi =
      some ([RE.opt (Atom.cls false [ClsItem.single '/'])], [], gi) := by
  intro fuel gi hf
  obtain ⟨f, rfl⟩ : ∃ f, fuel = f + 5 := ⟨fuel - 5, by omega⟩
  rfl

lemma runSeq_nil_pat (s : JStr) (cps : List (Nat × JStr))
    (k : JStr → List (Nat × JStr) → Option (JStr × List (Nat × JStr))) :
    runSeq [] s cps k = k s cps := by
  rw [runSeq]

lemma runSeq_atom_nil (a : Atom) (rest : List RE) (cps : List (Nat × JStr))
    (k : JStr → List (Nat × JStr) → Option (JStr × List (Nat × JStr))) :
    runSeq (.atom a :: rest) [] cps k = none := by
  rw [runSeq]

lemma runSeq_atom_cons (a : Atom) (rest : List RE) (c : Char) (t : JStr)
    (cps : List (Nat × JStr))
    (k : JStr → List (Nat × JStr) → Option (JStr × List (Nat × JStr))) :
    runSeq (.atom a :: rest) (c :: t) cps k =
      if atomMatch a c then runSeq rest t cps k else none := by
  rw [runSeq]

lemma runSeq_opt_nil (a : Atom) (rest : List RE) (cps : List (Nat × JStr))
    (k : JStr → List (Nat × JStr) → Option (JStr × List (Nat × JStr))) :
    runSeq (.opt a :: rest) [] cps k = runSeq rest [] cps k := by
  rw [runSeq]

lemma runSeq_opt_cons (a : Atom) (rest : List RE) (c : Char) (t : JStr)
    (cps : List (Nat × JStr))
    (k : JStr → List (Nat × JStr) → Option (JStr × List (Nat × JStr))) :
    runSeq (.opt a :: rest) (c :: t) cps k =
      if atomMatch a c then
        match runSeq rest t cps k with
        | some res => some res
        | none => runSeq rest (c :: t) cps k
      else runSeq rest (c :: t) cps k := by
  rw [runSeq]

/-- Matching a (mapped) literal character sequence consumes exactly that
prefix. -/
lemma runSeq_lits_pre (cs : JStr) (rest : List RE) (s : JStr)
    (cps : List (Nat × JStr))
    (k : JStr → List (Nat × JStr) → Option (JStr × List (Nat × JStr))) :
    runSeq (cs.map (fun c => RE.atom (Atom.lit c)) ++ rest) s cps k =
      if listPre cs s then runSeq rest (s.drop cs.length) cps k else none := by
  induction cs generalizing s with
  | nil => simp [listPre]
  | cons c cs' ih =>
      rw [List.map_cons, List.cons_append]
      cases s with
      | nil => rw [runSeq_atom_nil]; simp [listPre]
      | cons a t =>
          rw [runSeq_atom_cons]
          by_cases hac : a = c
          · rw [hac]
            simp [atomMatch, ih t, listPre]
          · have h1 : atomMatch (Atom.lit c) a = false := by
              simp [atomMatch, hac]
            have hca : (c == a) = false := beq_eq_false_iff_ne.mpr (fun h => hac h.symm)
            simp [h1, listPre, hca]

/-- The trailing `[/]?` fragment, at the end of the pattern, greedily
consumes one delimiter when the input continues with one. -/
lemma runSeq_optslash_end (s : JStr) (cps : List (Nat × JStr)) :
    runSeq [RE.opt (Atom.cls false [ClsItem.single '/'])] s cps
      (fun rem cps2 => some (rem, cps2)) =
      match s with
      | c :: t => if c = '/' then some (t, cps) else some (c :: t, cps)
      | [] => some ([], cps) := by
  cases s with
  | nil => rw [runSeq_opt_nil, runSeq_nil_pat]
  | cons c t =>
      rw [runSeq_opt_cons, runSeq_nil_pat, runSeq_nil_pat]
      by_cases hc : c = '/'
      · simp [atomMatch, clsItemMatch, hc]
      · simp [atomMatch, clsItemMatch, hc]

/-- Anchored match of an all-literal pattern: succeeds exactly on inputs
extending the pattern, with `match[0]` the pattern itself and no captures. -/
lemma jsMatchAnchored_lit (cs path : JStr)
    (hs : ∀ c ∈ cs, isMetaChar c = false) :
    jsMatchAnchored cs path =
      if listPre cs path then some (cs, []) else none := by
  have hpr : parseRegex cs = some (cs.map (fun c => RE.atom (Atom.lit c)), 0) := by
    unfold parseRegex
    rw [parseRE_lit cs hs (cs.length + 1) 1 (by omega)]
  unfold jsMatchAnchored
  rw [hpr]
  have hmap : (cs.map (fun c => RE.atom (Atom.lit c))) =
      cs.map (fun c => RE.atom (Atom.lit c)) ++ [] := by simp
  simp only []
  rw [hmap, runSeq_lits_pre cs [] path [] _]
  by_cases h : listPre cs path
  · rw [if_pos h, runSeq_nil_pat]
    have hlen : cs.length ≤ path.length := listPre_length cs path h
    simp only [if_pos h, List.length_drop, capList, List.range_zero, List.map_nil]
    rw [show path.length - (path.length - cs.length) = cs.length by omega]
    rw [listPre_take cs path h]
  · rw [if_neg h, if_neg h]

/-- Anchored match of an all-literal pattern followed by `[/]?`. -/
lemma jsMatchAnchored_lit_optslash (cs path : JStr)
    (hs : ∀ c ∈ cs, isMetaChar c = false) :
    jsMatchAnchored (cs ++ '[' :: '/' :: ']' :: '?' :: []) path =
      if listPre (cs ++ ['/']) path then some (cs ++ ['/'], [])
      else if listPre cs path then some (cs, []) else none := by
  have hpr : parseRegex (cs ++ '[' :: '/' :: ']' :: '?' :: []) =
      some (cs.map (fun c => RE.atom (Atom.lit c)) ++
        [RE.opt (Atom.cls false [ClsItem.single '/'])], 0) := by
    unfold parseRegex
    rw [parseRE_lit_gen ('[' :: '/' :: ']' :: '?' :: [])
      [RE.opt (Atom.cls false [ClsItem.single '/'])] 5 parseRE_optslash
      (fun c t h => by
        injection h with h1 h2
        rw [← h1]
        refine ⟨by decide, by decide, by decide⟩)
      cs hs ((cs ++ '[' :: '/' :: ']' :: '?' :: []).length + 1) 1 (by simp)]
  unfold jsMatchAnchored
  rw [hpr]
  simp only []
  rw [runSeq_lits_pre cs [RE.opt (Atom.cls false [ClsItem.single '/'])] path [] _]
  by_cases h : listPre cs path
  · rw [if_pos h, runSeq_optslash_end]
    have hlen : cs.length ≤ path.length := listPre_length cs path h
    have hdec := listPre_decompose cs path h
    cases hdrop : path.drop cs.length with
    | nil =>
        have hpath : path = cs := by rw [hdec, hdrop]; simp
        have hnp : listPre (cs ++ ['/']) path = false := by
          rw [hpath]
          by_contra hcon
          have := listPre_length (cs ++ ['/']) cs
            (by revert hcon; cases listPre (cs ++ ['/']) cs <;> simp)
          simp at this
        simp only [hnp, Bool.false_eq_true, if_false, if_pos h]
        have : path.length - path.length = 0 := by omega
        rw [show path.length - ([] : JStr).length = path.length by simp]
        rw [List.take_length]
        rw [hpath]
        simp [capList]
    | cons c t =>
        by_cases hc : c = '/'
        · have hp2 : listPre (cs ++ ['/']) path = true := by
            rw [listPre_iff]
            refine ⟨t, ?_⟩
            rw [hdec, hdrop, hc]
            simp
          simp only [if_pos hc, hp2, if_pos rfl]
          have hlt : t.length < path.length := by
            have := congrArg List.length hdrop
            simp only [List.length_drop, List.length_cons] at this
            omega
          have htake : path.take (path.length - t.length) = cs ++ ['/'] := by
            have hpl : path.length - t.length = cs.length + 1 := by
              have := congrArg List.length hdrop
              simp only [List.length_drop, List.length_cons] at this
              omega
            rw [hpl]
            rw [hdec, hdrop, hc]
            rw [show cs.length + 1 = (cs ++ ['/']).length by simp]
            rw [show cs ++ '/' :: t = (cs ++ ['/']) ++ t by simp]
            rw [List.take_left]
          rw [htake]
          simp [capList]
        · have hp2 : listPre (cs ++ ['/']) path = false := by
            by_contra hcon
            have hpre : listPre (cs ++ ['/']) path = true := by
              revert hcon; cases listPre (cs ++ ['/']) path <;> simp
            have hdec2 := listPre_decompose _ path hpre
            rw [hdec, hdrop] at hdec2
            rw [List.append_assoc] at hdec2
            have hinj := List.append_cancel_left hdec2
            rw [List.singleton_append] at hinj
            injection hinj with h1 _
            exact hc h1
          simp only [if_neg hc, hp2, Bool.false_eq_true, if_false, if_pos h]
          have htake : path.take (path.length - (c :: t).length) = cs := by
            have := congrArg List.length hdrop
            simp only [List.length_drop, List.length_cons] at this
            rw [show path.length - (c :: t).length = cs.length by
              simp only [List.length_cons]; omega]
            exact listPre_take cs path h
          rw [htake]
          simp [capList]
  · have hnp : listPre (cs ++ ['/']) path = false := by
      by_contra hcon
      have hpre : listPre (cs ++ ['/']) path = true := by
        revert hcon; cases listPre (cs ++ ['/']) path <;> simp
      rw [listPre_append_left cs ['/'] path hpre] at h
      exact h rfl
    rw [if_neg h, hnp]
    simp [h]

lemma listPre_refl (a : JStr) : listPre a a = true :=
  (listPre_iff a a).mpr (List.prefix_refl a)

lemma listPre_append_self_false (a : JStr) (x : JStr) (hx : x ≠ []) :
    listPre (a ++ x) a = false := by
  by_contra hcon
  have hpre : listPre (a ++ x) a = true := by
    revert hcon; cases listPre (a ++ x) a <;> simp
  have := listPre_length _ _ hpre
  simp only [List.length_append] at this
  have : x.length = 0 := by omega
  exact hx (List.length_eq_zero.mp this)

/-!
## Claim theorems: pattern compiler
-/

/-- C6: during pattern compilation of a segment, each `:token` occurrence is
tested against the registered substitution functions in registration order;
the first substitution whose output differs from the input token determines
the replacement, and if no substitution changes the token it is replaced by
the default capture group `([a-zA-Z0-9-]+)`. -/
theorem c6_token_substitution_order (tok : JStr) :
    (∀ fs : List (JStr → JStr), (∀ g ∈ fs, g tok = tok) →
      paramifyString tok fs = defaultParam) ∧
    (∀ (fs₁ fs₂ : List (JStr → JStr)) (f : JStr → JStr),
      (∀ g ∈ fs₁, g tok = tok) → f tok ≠ tok →
      paramifyString tok (fs₁ ++ f :: fs₂) = f tok) := by
  constructor
  · intro fs h
    simp [paramifyString, paramLoop_unchanged tok fs h]
  · intro fs₁ fs₂ f h1 h2
    simp only [paramifyString, paramLoop_first_win tok fs₁ fs₂ f h1 h2, if_neg h2]

/-- Witness for C6 at concrete inputs: with no substitutions the token gets
the default group, and a substitution that rewrites the token wins over
later ones. -/
theorem c6_token_substitution_order_witness :
    paramifyString (jstr ":x") [] = defaultParam ∧
    paramifyString (jstr ":x") ([] ++ (fun _ => jstr "(0-9)") :: [fun s => s]) =
      jstr "(0-9)" := by
  constructor
  · exact (c6_token_substitution_order (jstr ":x")).1 [] (by simp)
  · exact (c6_token_substitution_order (jstr ":x")).2 [] [fun s => s]
      (fun _ => jstr "(0-9)") (by simp) (by decide)

/-- C9 counterexample: the claim `regify(regify(s, p), p) = regify(s, p)`
for every `s` and `p` fails at `s = ":a"` with the substitution mapping
registered by `param(':a', ':b')`.  First compilation yields `:b`; the
second rewrites that token to the default capture group. -/
theorem c9_counterexample :
    regifyString (regifyString (jstr ":a") [subAB]) [subAB] ≠
      regifyString (jstr ":a") [subAB] := by
  simp [regifyString, subAB, jstr, hasChar, colonTokens, paramifyString,
    paramLoop, replaceAllLit, replaceFirst, listPre, defaultParam]

/-- C9 (amended): pattern compilation is idempotent provided no substitution
is registered: for every segment string `s`,
`regify(regify(s, ∅), ∅) = regify(s, ∅)`; recompiling the compiled pattern
neither double-escapes nor double-wraps it.  (With registered substitutions
idempotence can fail, since a substitution may rewrite a token into another
token — see the counterexample.) -/
theorem c9_regify_idempotent_no_subs (s : JStr) :
    regifyString (regifyString s []) [] = regifyString s [] := by
  rw [regifyString_nil_eq s]
  have hstar : '*' ∉ replaceTokens (if hasChar s '*' then replaceStar s else s) :=
    replaceTokens_no_star _ (star_stage_no_star s)
  have htok : colonTokens (replaceTokens (if hasChar s '*' then replaceStar s else s)) = [] :=
    colonTokens_replaceTokens _
  have hchar : hasChar (replaceTokens (if hasChar s '*' then replaceStar s else s)) '*' = false := by
    rw [← Bool.not_eq_true, hasChar_iff_mem]
    exact hstar
  simp only [regifyString, hchar, Bool.false_eq_true, if_false, htok, List.foldl_nil]

/-!
## Claim theorems: traversal boundaries
-/

/-- C7: with the default delimiter `/` and a literal accumulated pattern,
the terminal-match test traverse performs at each level (source lines
414-444) succeeds in strict mode exactly when the accumulated pattern
(`regexp + '/' + r`) equals the whole path — an exact string boundary at the
matched segment's end — while in non-strict mode a path carrying one
additional trailing delimiter also passes. -/
theorem c7_strict_nonstrict_boundary (rx r path : JStr)
    (hlit : ∀ c ∈ rx ++ '/' :: r, isMetaChar c = false) :
    (exactMatchTest true (jstr "/") rx r path = true ↔
      path = rx ++ jstr "/" ++ r) ∧
    (exactMatchTest false (jstr "/") rx r path = true ↔
      (path = rx ++ jstr "/" ++ r ∨ path = rx ++ jstr "/" ++ r ++ jstr "/")) := by
  have hL : ∀ c ∈ rx ++ jstr "/" ++ r, isMetaChar c = false := by
    intro c hcm
    apply hlit
    simp only [jstr, List.mem_append, List.mem_cons, List.not_mem_nil,
      or_false, false_or] at hcm ⊢
    tauto
  have hLne : rx ++ jstr "/" ++ r ≠ [] := by
    intro h
    have := congrArg List.length h
    simp [jstr] at this
  constructor
  · unfold exactMatchTest segExact
    rw [if_pos rfl, jsMatchAnchored_lit _ path hL]
    by_cases hp : listPre (rx ++ jstr "/" ++ r) path
    · rw [if_pos hp]
      simp only [decide_eq_true_eq, ne_eq]
      constructor
      · rintro ⟨_, h2⟩
        exact h2.symm
      · rintro rfl
        exact ⟨hLne, rfl⟩
    · rw [if_neg hp]
      simp only [Bool.false_eq_true, false_iff]
      rintro rfl
      exact hp (listPre_refl _)
  · unfold exactMatchTest segExact
    rw [if_neg (by simp)]
    rw [show rx ++ jstr "/" ++ r ++ (jstr "[" ++ jstr "/" ++ jstr "]?") =
      (rx ++ jstr "/" ++ r) ++ '[' :: '/' :: ']' :: '?' :: [] by simp [jstr]]
    rw [jsMatchAnchored_lit_optslash _ path hL]
    by_cases hp1 : listPre (rx ++ jstr "/" ++ r ++ ['/']) path
    · rw [show (rx ++ jstr "/" ++ r) ++ ['/'] = rx ++ jstr "/" ++ r ++ ['/'] by simp]
      rw [if_pos hp1]
      simp only [decide_eq_true_eq, ne_eq]
      constructor
      · rintro ⟨_, h2⟩
        refine Or.inr ?_
        rw [← h2]
        simp [jstr]
      · rintro (rfl | rfl)
        · exfalso
          rw [show rx ++ jstr "/" ++ r ++ ['/'] =
            (rx ++ jstr "/" ++ r) ++ ['/'] by simp] at hp1
          rw [listPre_append_self_false _ _ (by simp)] at hp1
          cases hp1
        · constructor
          · intro h
            have := congrArg List.length h
            simp [jstr] at this
          · simp [jstr]
    · rw [show (rx ++ jstr "/" ++ r) ++ ['/'] = rx ++ jstr "/" ++ r ++ ['/'] by simp]
      rw [if_neg hp1]
      by_cases hp2 : listPre (rx ++ jstr "/" ++ r) path
      · rw [if_pos hp2]
        simp only [decide_eq_true_eq, ne_eq]
        constructor
        · rintro ⟨_, h2⟩
          exact Or.inl h2.symm
        · rintro (rfl | rfl)
          · exact ⟨hLne, rfl⟩
          · exfalso
            apply hp1
            rw [show rx ++ jstr "/" ++ r ++ jstr "/" =
              rx ++ jstr "/" ++ r ++ ['/'] by simp [jstr]]
            exact listPre_refl _
      · rw [if_neg hp2]
        simp only [Bool.false_eq_true, false_iff]
        rintro (rfl | rfl)
        · exact hp2 (listPre_refl _)
        · apply hp1
          rw [show rx ++ jstr "/" ++ r ++ jstr "/" =
            rx ++ jstr "/" ++ r ++ ['/'] by simp [jstr]]
          exact listPre_refl _

/-- Witness for C7 at concrete inputs: pattern prefix `""`, segment `foo`,
delimiter `/`: in strict mode `/foo` passes the boundary test; in non-strict
mode `/foo/` passes as well. -/
theorem c7_strict_nonstrict_boundary_witness :
    exactMatchTest true (jstr "/") [] (jstr "foo") (jstr "/foo") = true ∧
    exactMatchTest false (jstr "/") [] (jstr "foo") (jstr "/foo/") = true ∧
    exactMatchTest true (jstr "/") [] (jstr "foo") (jstr "/foo/") = false := by
  have h := c7_strict_nonstrict_boundary [] (jstr "foo") (jstr "/foo") (by decide)
  have h2 := c7_strict_nonstrict_boundary [] (jstr "foo") (jstr "/foo/") (by decide)
  refine ⟨h.1.mpr (by decide), h2.2.mpr (Or.inr (by decide)), ?_⟩
  by_contra hcon
  have : exactMatchTest true (jstr "/") [] (jstr "foo") (jstr "/foo/") = true := by
    revert hcon; cases exactMatchTest true (jstr "/") [] (jstr "foo") (jstr "/foo/") <;> simp
  have := h2.1.mp this
  revert this
  decide

/-- C2: for every method and every routing table whose root node holds a
handler for it, traversing with the bare delimiter as path returns
immediately: the primary layer is the root's `before` and method handlers
(absent entries filtered out), the after-layer is the root's `after`
handler, the capture list is empty — and the result does not depend on any
sibling key or on the accumulated pattern, so general traversal is
bypassed. -/
theorem c2_root_short_circuit (cfg : Conf) (m : JStr) (routes : JVal) (rx : JStr)
    (h : truthy (getProp routes m) = true) :
    traverse cfg m cfg.delimiter routes rx =
      some ⟨[filterTruthy [getProp routes (jstr "before"), getProp routes m]],
            filterTruthy [getProp routes (jstr "after")], []⟩ := by
  rw [traverse.eq_def]
  rw [if_pos ⟨rfl, h⟩]

/-- Witness for C2 at a concrete input: a root `on` handler dispatched with
path `/` on a default-configured router. -/
theorem c2_root_short_circuit_witness :
    traverse cfgDefault (jstr "on") (jstr "/")
      (JVal.obj [(jstr "on", JVal.fn 0 ⟨HRet.rother, ARet.aok⟩ [])]) [] =
      some ⟨[[JVal.fn 0 ⟨HRet.rother, ARet.aok⟩ []]], [], []⟩ := by
  have h := c2_root_short_circuit cfgDefault (jstr "on")
    (JVal.obj [(jstr "on", JVal.fn 0 ⟨HRet.rother, ARet.aok⟩ [])]) []
    (by simp [getProp, lookupEntry, truthy])
  rw [show (jstr "/") = cfgDefault.delimiter from rfl, h]
  simp [filterTruthy, getProp, lookupEntry, truthy, jstr]

/-!
## Claim theorems: dispatch
-/

/-- C3 counterexample: the claim requires every unmatched dispatch to return
`false`, invoking a configured not-found handler exactly once.  On an
asynchronous router, an unmatched dispatch with a configured not-found
handler instead throws a `TypeError` — the ad-hoc `[notfound]` run-list has
no `captures` array and the iterator evaluates
`fns.captures.concat(next)` — so nothing is returned and the handler is
never invoked. -/
theorem c3_counterexample :
    dispatch ⟨Rec.off, true, jstr "/", true, [jstr "on", jstr "after", jstr "before"],
        none, none, none, some (JVal.fn 7 ⟨HRet.rother, ARet.aok⟩ []), false⟩
      ⟨JVal.obj [], [], false⟩ (jstr "on") (jstr "/x") = .error JErr.typeError := by
  have hmiss : traverse ⟨Rec.off, true, jstr "/", true,
      [jstr "on", jstr "after", jstr "before"],
      none, none, none, some (JVal.fn 7 ⟨HRet.rother, ARet.aok⟩ []), false⟩
      (jstr "on") (jstr "/x") (JVal.obj []) [] = none := by
    rw [traverse.eq_def]
    simp [getProp, lookupEntry, truthy, jstr, travLoop]
  unfold dispatch
  simp only [hmiss]
  simp [invoke, asyncIter]

/-- C3 (amended): for every `(method, path)` pair whose traversal fails, a
*synchronous* dispatch returns `false` and invokes the configured not-found
handler exactly once with `{method, path}` as its context (or invokes
nothing when none is configured, still returning `false`); the recorded
after-layer is cleared.  An *asynchronous* dispatch with a configured
not-found handler instead throws a `TypeError` before the handler runs. -/
theorem c3_unmatched_dispatch (cfg : Conf) (st : RState) (m p : JStr)
    (hmiss : traverse cfg m p st.routes [] = none) :
    (∀ i b pr, cfg.async = false → cfg.notfound = some (JVal.fn i b pr) →
      dispatch cfg st m p =
        .ok (false, ⟨st.routes, [], true⟩, [Ev.call i (.methodPath m p) []])) ∧
    (cfg.notfound = none →
      dispatch cfg st m p = .ok (false, ⟨st.routes, [], true⟩, [])) ∧
    (∀ i b pr, cfg.async = true → cfg.notfound = some (JVal.fn i b pr) →
      dispatch cfg st m p = .error JErr.typeError) := by
  refine ⟨?_, ?_, ?_⟩
  · intro i b pr ha hn
    unfold dispatch
    simp only [hmiss, hn, ha]
    simp [invoke, everySync, applySync]
    cases hsr : b.sret == HRet.rfalse <;> simp
  · intro hn
    unfold dispatch
    simp only [hmiss, hn]
  · intro i b pr ha hn
    unfold dispatch
    simp only [hmiss, hn, ha]
    simp [invoke, asyncIter]

/-- Witness for C3's amended statement: a synchronous unmatched dispatch
invoking the not-found handler once with `{method, path}`. -/
theorem c3_unmatched_dispatch_witness :
    dispatch ⟨Rec.off, false, jstr "/", true, [jstr "on", jstr "after", jstr "before"],
        none, none, none, some (JVal.fn 7 ⟨HRet.rother, ARet.aok⟩ []), false⟩
      ⟨JVal.obj [], [], false⟩ (jstr "on") (jstr "/x") =
      .ok (false, ⟨JVal.obj [], [], true⟩,
        [Ev.call 7 (ThisArg.methodPath (jstr "on") (jstr "/x")) []]) := by
  have hmiss : traverse ⟨Rec.off, false, jstr "/", true,
      [jstr "on", jstr "after", jstr "before"],
      none, none, none, some (JVal.fn 7 ⟨HRet.rother, ARet.aok⟩ []), false⟩
      (jstr "on") (jstr "/x") (JVal.obj []) [] = none := by
    rw [traverse.eq_def]
    simp [getProp, lookupEntry, truthy, jstr, travLoop]
  exact (c3_unmatched_dispatch _ ⟨JVal.obj [], [], false⟩ (jstr "on") (jstr "/x")
    hmiss).1 7 ⟨HRet.rother, ARet.aok⟩ [] rfl rfl

/-!
## Claim theorems: insertion
-/

/-- C4: for every insertion of a handler at a `(node, method)` slot, a slot
holding a callable becomes the two-element list `[existing, new]`, a slot
holding a list has the new handler appended, and an absent slot is set
directly; in no case is an existing handler silently overwritten. -/
theorem c4_slot_merge_policy (params : List (JStr → JStr)) (m s : JStr)
    (route parent : JVal) (ns : List (JStr × JVal)) (b : Bool)
    (hs0 : s ≠ []) (hs1 : hasChar s ':' = false) (hs2 : hasChar s '*' = false)
    (hnode : getProp parent s = some (.obj ns)) :
    (∀ i hb pr, lookupEntry ns m = some (.fn i hb pr) →
      insert params m [s] route parent b =
        .ok (setProp parent s (.obj (setEntry ns m (.arr [.fn i hb pr, route]))))) ∧
    (∀ hsl, lookupEntry ns m = some (.arr hsl) →
      insert params m [s] route parent b =
        .ok (setProp parent s (.obj (setEntry ns m (.arr (hsl ++ [route])))))) ∧
    (lookupEntry ns m = none →
      insert params m [s] route parent b =
        .ok (setProp parent s (.obj (setEntry ns m route)))) := by
  have hu : insert params m [s] route parent b = insertFinal m s route parent := by
    rw [insert_single params m s route parent b hs0, hs1, hs2]
    simp
  refine ⟨?_, ?_, ?_⟩
  · intro i hb pr hslot
    rw [hu]
    simp only [insertFinal, hnode, hslot]
  · intro hsl hslot
    rw [hu]
    simp only [insertFinal, hnode, hslot]
  · intro hslot
    rw [hu]
    simp only [insertFinal, hnode, hslot]

/-- Witness for C4 at concrete inputs: all three slot cases, on a node
reached through a one-segment path. -/
theorem c4_slot_merge_policy_witness :
    insert [] ['o', 'n'] [['a']] (JVal.fn 2 ⟨HRet.rother, ARet.aok⟩ [])
        (JVal.obj [(['a'], JVal.obj [(['o', 'n'], JVal.fn 1 ⟨HRet.rother, ARet.aok⟩ [])])]) true =
      .ok (JVal.obj [(['a'], JVal.obj [(['o', 'n'],
        JVal.arr [JVal.fn 1 ⟨HRet.rother, ARet.aok⟩ [], JVal.fn 2 ⟨HRet.rother, ARet.aok⟩ []])])]) ∧
    insert [] ['o', 'n'] [['a']] (JVal.fn 2 ⟨HRet.rother, ARet.aok⟩ [])
        (JVal.obj [(['a'], JVal.obj [(['o', 'n'], JVal.arr [JVal.fn 1 ⟨HRet.rother, ARet.aok⟩ []])])]) true =
      .ok (JVal.obj [(['a'], JVal.obj [(['o', 'n'],
        JVal.arr [JVal.fn 1 ⟨HRet.rother, ARet.aok⟩ [], JVal.fn 2 ⟨HRet.rother, ARet.aok⟩ []])])]) ∧
    insert [] ['o', 'n'] [['a']] (JVal.fn 2 ⟨HRet.rother, ARet.aok⟩ [])
        (JVal.obj [(['a'], JVal.obj [])]) true =
      .ok (JVal.obj [(['a'], JVal.obj [(['o', 'n'], JVal.fn 2 ⟨HRet.rother, ARet.aok⟩ [])])]) := by
  refine ⟨?_, ?_, ?_⟩
  · have h := (c4_slot_merge_policy [] ['o', 'n'] ['a']
      (JVal.fn 2 ⟨HRet.rother, ARet.aok⟩ [])
      (JVal.obj [(['a'], JVal.obj [(['o', 'n'], JVal.fn 1 ⟨HRet.rother, ARet.aok⟩ [])])])
      [(['o', 'n'], JVal.fn 1 ⟨HRet.rother, ARet.aok⟩ [])] true
      (by decide) (by decide) (by decide) (by simp [getProp, lookupEntry])).1
      1 ⟨HRet.rother, ARet.aok⟩ [] (by simp [lookupEntry])
    rw [h]
    simp [setProp, setEntry]
  · have h := (c4_slot_merge_policy [] ['o', 'n'] ['a']
      (JVal.fn 2 ⟨HRet.rother, ARet.aok⟩ [])
      (JVal.obj [(['a'], JVal.obj [(['o', 'n'], JVal.arr [JVal.fn 1 ⟨HRet.rother, ARet.aok⟩ []])])])
      [(['o', 'n'], JVal.arr [JVal.fn 1 ⟨HRet.rother, ARet.aok⟩ []])] true
      (by decide) (by decide) (by decide) (by simp [getProp, lookupEntry])).2.1
      [JVal.fn 1 ⟨HRet.rother, ARet.aok⟩ []] (by simp [lookupEntry])
    rw [h]
    simp [setProp, setEntry]
  · have h := (c4_slot_merge_policy [] ['o', 'n'] ['a']
      (JVal.fn 2 ⟨HRet.rother, ARet.aok⟩ [])
      (JVal.obj [(['a'], JVal.obj [])]) [] true
      (by decide) (by decide) (by decide) (by simp [getProp, lookupEntry])).2.2
      (by simp [lookupEntry])
    rw [h]
    simp [setProp, setEntry]

/-- C5 counterexample: the claim demands an `InvalidRouteContext` error for
every insert whose target segment holds a value that is neither absent nor
a plain object — including a callable occupying a segment that would need to
hold children.  But inserting `['a', 'b']` into a table where segment `a`
holds a bare callable succeeds: the children are attached as properties on
the function, and no error is raised. -/
theorem c5_counterexample :
    insert [] ['o', 'n'] [['a'], ['b']] (JVal.fn 1 ⟨HRet.rother, ARet.aok⟩ [])
        (JVal.obj [(['a'], JVal.fn 0 ⟨HRet.rother, ARet.aok⟩ [])]) true =
      .ok (JVal.obj [(['a'], JVal.fn 0 ⟨HRet.rother, ARet.aok⟩
        [(['b'], JVal.obj [(['o', 'n'], JVal.fn 1 ⟨HRet.rother, ARet.aok⟩ [])])])]) := by
  simp [insert, insertAux, insertFinal, getProp, lookupEntry, setProp, setEntry,
    truthy, hasChar]

/-- C5 (amended): the `Invalid route context` error is raised exactly when
the **final** path segment's slot holds a value that is neither absent nor a
plain (non-array) object (a callable, array, or string); it propagates
synchronously as the `Except` error.  A callable occupying an
**intermediate** segment does not fail: insertion descends into the callable
and attaches the children as properties on it. -/
theorem c5_final_segment_context_error (params : List (JStr → JStr)) (m s s₂ : JStr)
    (route parent : JVal) (b : Bool)
    (hs0 : s ≠ []) (hs1 : hasChar s ':' = false) (hs2 : hasChar s '*' = false)
    (hs20 : s₂ ≠ []) (hs21 : hasChar s₂ ':' = false) (hs22 : hasChar s₂ '*' = false) :
    (∀ v, getProp parent s = some v → isNotPlainObj v = true →
      insert params m [s] route parent b = .error (.invalidContext (typeOf v))) ∧
    (∀ i hb pr, getProp parent s = some (.fn i hb pr) → lookupEntry pr s₂ = none →
      insert params m [s, s₂] route parent b =
        .ok (setProp parent s (.fn i hb (setEntry pr s₂ (.obj [(m, route)]))))) := by
  have hu : insert params m [s] route parent b = insertFinal m s route parent := by
    rw [insert_single params m s route parent b hs0, hs1, hs2]
    simp
  constructor
  · intro v hv hbare
    rw [hu]
    cases v with
    | obj es => simp [isNotPlainObj] at hbare
    | fn i hb pr => simp only [insertFinal, hv, typeOf]
    | str t => simp only [insertFinal, hv, typeOf]
    | arr hs => simp only [insertFinal, hv, typeOf]
  · intro i hb pr hv hnone
    rw [insert_pair params m s s₂ route parent b hs0 hs20 hs1 hs2]
    have hchild : (match getProp parent s with
        | some v => if truthy (some v) = true then v else JVal.obj []
        | none => JVal.obj []) = JVal.fn i hb pr := by
      rw [hv]
      rfl
    rw [hchild]
    have haux : insertAux params m [s₂] route (JVal.fn i hb pr) false =
        .ok (JVal.fn i hb (setEntry pr s₂ (.obj [(m, route)]))) := by
      rw [insertAux]
      simp [hs21, hs22, insertFinal, getProp, hnone, setProp]
    rw [haux]

/-- Witness for C5's amended statement at concrete inputs. -/
theorem c5_final_segment_context_error_witness :
    insert [] ['o', 'n'] [['a']] (JVal.fn 1 ⟨HRet.rother, ARet.aok⟩ [])
        (JVal.obj [(['a'], JVal.fn 0 ⟨HRet.rother, ARet.aok⟩ [])]) true =
      .error (.invalidContext "function") ∧
    insert [] ['o', 'n'] [['a'], ['b']] (JVal.fn 1 ⟨HRet.rother, ARet.aok⟩ [])
        (JVal.obj [(['a'], JVal.fn 0 ⟨HRet.rother, ARet.aok⟩ [])]) true =
      .ok (JVal.obj [(['a'], JVal.fn 0 ⟨HRet.rother, ARet.aok⟩
        [(['b'], JVal.obj [(['o', 'n'], JVal.fn 1 ⟨HRet.rother, ARet.aok⟩ [])])])]) := by
  have h := c5_final_segment_context_error [] ['o', 'n'] ['a'] ['b']
    (JVal.fn 1 ⟨HRet.rother, ARet.aok⟩ [])
    (JVal.obj [(['a'], JVal.fn 0 ⟨HRet.rother, ARet.aok⟩ [])]) true
    (by decide) (by decide) (by decide) (by decide) (by decide) (by decide)
  constructor
  · exact h.1 (JVal.fn 0 ⟨HRet.rother, ARet.aok⟩ [])
      (by simp [getProp, lookupEntry]) (by simp [isNotPlainObj])
  · have h2 := h.2 0 ⟨HRet.rother, ARet.aok⟩ []
      (by simp [getProp, lookupEntry]) (by simp [lookupEntry])
    rw [h2]
    simp [setProp, setEntry]

/-!
## Claim theorems: invocation engine
-/

/-- C1 counterexample: in synchronous mode, a handler returning exactly
`false` from inside a nested run-list layer does *not* stop the outer walk.
In the run-list `[[h1], h2]`, `h1` returns `false`, yet `h2` is invoked:
`_every` itself returns `undefined` for the inner layer, which `_every`'s
`=== false` test does not notice. -/
theorem c1_counterexample :
    everySync false ThisArg.router []
      [JVal.arr [JVal.fn 0 ⟨HRet.rfalse, ARet.aok⟩ []],
       JVal.fn 1 ⟨HRet.rother, ARet.aok⟩ []] =
    [Ev.call 0 ThisArg.router [], Ev.call 1 ThisArg.router []] := rfl

/-- C1 (amended): in synchronous mode a *function* handler returning exactly
`false` stops the walk of the list in which it directly appears: every entry
after it in that same list is skipped, and no error is raised (the trace is
unchanged by anything after the false-returning handler).  A `false`
returned inside a nested layer does not stop the enclosing walk, and the
return value of a string (resource) handler is discarded. -/
theorem c1_sync_false_stops_direct_siblings (res : Bool) (thisA : ThisArg)
    (caps : List JStr) (l₁ l₂ : List JVal) (i : Nat) (ar : ARet)
    (pr : List (JStr × JVal)) :
    everySync res thisA caps (l₁ ++ JVal.fn i ⟨HRet.rfalse, ar⟩ pr :: l₂) =
      everySync res thisA caps (l₁ ++ [JVal.fn i ⟨HRet.rfalse, ar⟩ pr]) := by
  induction l₁ with
  | nil => rfl
  | cons e l₁' ih =>
      simp only [List.cons_append, everySync]
      rcases h : applySync res thisA caps e with ⟨t, st⟩
      cases st
      · simp only [List.append_eq, ih]
      · rfl

/-- C8 counterexample: in asynchronous mode an entry that is not a function,
string or array is *not* silently skipped with the walk proceeding: the
iterator never invokes its continuation, so the series stalls — the
following handler is never invoked and the terminal callback never runs. -/
theorem c8_counterexample :
    asyncIter ThisArg.router (some [])
      [JVal.obj [], JVal.fn 1 ⟨HRet.rother, ARet.aok⟩ []] =
    .ok ([], AOut.stalled) := rfl

/-- C8 (amended): an entry that is neither a function, nor a string, nor an
array is silently skipped in *synchronous* mode — not invoked, no error, walk
proceeds.  In *asynchronous* mode such an entry stalls the series: it is not
invoked, no error is raised, but neither the remaining entries nor the
terminal continuation ever run. -/
theorem c8_nonhandler_sync_skip_async_stall (res : Bool) (thisA : ThisArg)
    (caps : List JStr) (e : List (JStr × JVal)) (rest : List JVal)
    (capsOpt : Option (List JStr)) (arest : List JVal) :
    everySync res thisA caps (JVal.obj e :: rest) = everySync res thisA caps rest ∧
    asyncIter thisA capsOpt (JVal.obj e :: arest) = .ok ([], AOut.stalled) := by
  constructor
  · simp only [everySync, applySync]
    rfl
  · rfl

/-!
## Claim theorems: declaration scoping
-/

/-- C10: for every call `path(scopePath, routesFn)` whose declaration
function leaves the (extended) scope as it found it — as every route
declaration made of `on`/`path`/`mount` calls does — the router's scope
sequence after the call equals its value before the call: the segments of
`scopePath` are appended for the duration of `routesFn` and removed
afterwards, so nested declaration scoping never leaks into later
declarations. -/
theorem c10_path_restores_scope (delim p : JStr) (f : List JStr → List JStr)
    (scope : List JStr)
    (hf : f (scope ++ jsSplit delim p) = scope ++ jsSplit delim p) :
    pathOp delim p f scope = scope := by
  unfold pathOp
  simp only []
  rw [hf]
  rw [List.take_left]
  rw [show scope.length + (jsSplit delim p).length =
    (scope ++ jsSplit delim p).length by simp]
  rw [List.drop_length]
  simp

/-- Witness for C10 at a concrete input: an identity declaration function
with scope path `/a` over prior scope `["x"]`. -/
theorem c10_path_restores_scope_witness :
    pathOp (jstr "/") (jstr "/a") id [jstr "x"] = [jstr "x"] :=
  c10_path_restores_scope (jstr "/") (jstr "/a") id [jstr "x"] rfl

end Director
